import Mathlib

/-! Verification development for a CPPI (Constant Proportion Portfolio
Insurance) simulation library: a rebalance scheduler, two simulation
engines (a static-floor and a dynamic-floor variant), a freeze
diagnostic, and a performance-metrics engine.

Modelling conventions, used throughout:
* Python floats are modelled by exact rationals (`ℚ`); float rounding
  is outside the model.
* A float NaN (or infinity) produced by a degenerate statistic — the
  mean or sample standard deviation of a too-short series, a Sharpe
  ratio with zero standard deviation, the minimum of an empty series —
  is modelled by `Option.none`.
* A Python `ZeroDivisionError` raised inside `run_cppi` (whose state
  stays a plain Python float thanks to its `float(...)` casts) is
  modelled by `Except.error`; a run that raises no error returns
  `Except.ok` with its recorded per-step outputs.
* `run_cppi_dynamic_floor` has no `float(...)` casts: its weight is the
  `np.float64` returned by `np.clip` and its row values come from
  `iterrows`, so its portfolio value is an `np.float64` and a zero-NAV
  cushion division yields the float nan (or ±inf) with a RuntimeWarning
  instead of raising; nan then propagates into every subsequently
  recorded value.  Such a run is modelled by `DynResult.nan_tail`: the
  real-valued prefix of recorded states, plus the count of remaining
  steps whose recorded values are all nan.
* Timestamps are modelled as natural numbers counting days from the
  epoch 2000-01-01, which was a Saturday (so a day `d` is a Sunday
  exactly when `d % 7 = 1`).
* The Sharpe ratio `mean/std * sqrt 252` is an irrational real; it is
  represented by its defining data, the pair `(mean, sample variance)`
  of the underlying returns, with `none` standing for the non-finite
  float produced when the standard deviation is zero or undefined.
-/

namespace CPPI

/-- Supported rebalance frequency tokens: daily, weekly, month-end. -/
inductive Freq
  | D
  | W
  | ME
deriving DecidableEq

/-- One row of the two-asset aligned return series: a timestamp and the
SPY (risky) and SHY (safe) returns on that date. -/
structure Row where
  date : Nat
  spy : ℚ
  shy : ℚ
deriving DecidableEq

/-- The one error `run_cppi` can raise: the `ZeroDivisionError` of its
pure-Python cushion division at a rebalance date with zero NAV. -/
inductive SimError
  | div_by_zero
deriving DecidableEq

/-- Gregorian leap-year test. -/
def isLeap (y : Nat) : Bool :=
  (y % 4 = 0 && y % 100 ≠ 0) || y % 400 = 0

/-- Number of days of month `m` (1–12) of year `y`. -/
def daysInMonth (y m : Nat) : Nat :=
  if m = 2 then (if isLeap y then 29 else 28)
  else if m = 4 ∨ m = 6 ∨ m = 9 ∨ m = 11 then 30
  else 31

/-- Walk the calendar month by month from month `m` of year `y`, whose
first day is day number `start`, until the month containing day `d` is
found; return the day number of the last day of that month.  `fuel`
bounds the walk; `fuel = d + 1` months always suffices since every
month has at least 28 days. -/
def monthEndFrom : Nat → Nat → Nat → Nat → Nat → Nat
  | 0, _, _, _, d => d
  | fuel + 1, y, m, start, d =>
      if d < start + daysInMonth y m then start + daysInMonth y m - 1
      else if m = 12 then monthEndFrom fuel (y + 1) 1 (start + daysInMonth y m) d
      else monthEndFrom fuel y (m + 1) (start + daysInMonth y m) d

/-- Day number of the last calendar day of the month containing day `d`
(days counted from the epoch 2000-01-01). -/
def monthEndLabel (d : Nat) : Nat :=
  monthEndFrom (d + 1) 2000 1 0 d

/-- The pandas resample bin label of the bin containing day `d`:
for `D` the day itself, for `W` the Sunday ending the week of `d`
(pandas `W` is week-ending-Sunday, labelled on the right edge), for
`ME` the last calendar day of the month of `d`. -/
def binLabel : Freq → Nat → Nat
  | .D, d => d
  | .W, d => d + (8 - d % 7) % 7
  | .ME, d => monthEndLabel d

/-- Model of `set(returns.resample(rebalance_freq).first().index)`:
the index of a pandas `resample(freq).first()` is the list of bin
labels of every bin in the span of the series — equivalently, the
deduplicated image of `binLabel` over every day from the first to the
last timestamp (bins with no series row are still generated and
labelled).  Empty input gives an empty set. -/
def resample_first_index (dates : List Nat) (freq : Freq) : List Nat :=
  match dates.min?, dates.max? with
  | some lo, some hi => ((List.range' lo (hi + 1 - lo)).map (binLabel freq)).dedup
  | _, _ => []

/-- Modelled from the spec: the scheduler contract of the spec, "the
set of timestamps that are the first timestamp falling in each period
bucket of that frequency, restricted to dates actually present in the
series" — the dates of the series that are minimal among the series
dates sharing their bin. -/
def spec_rebalance_dates (dates : List Nat) (freq : Freq) : List Nat :=
  dates.filter fun d =>
    dates.all fun e => !(binLabel freq e = binLabel freq d : Bool) || d ≤ e

/-- Model of `np.clip(x, 0, 1)`. -/
def clip01 (x : ℚ) : ℚ :=
  min (max x 0) 1

/-- The per-step weight update of `run_cppi`: on a rebalance date,
`w = float(np.clip(m * (max(pv - floor, 0) / pv), 0, 1))` — raising
`ZeroDivisionError` when the plain-Python-float `pv` is 0 — and on any
other date the previous weight is carried over unchanged. -/
def newWeight (floor m : ℚ) (rebal : Bool) (pv w : ℚ) : Except SimError ℚ :=
  if rebal then
    if pv = 0 then .error .div_by_zero
    else .ok (clip01 (m * (max (pv - floor) 0 / pv)))
  else .ok w

/-- One step of `run_cppi`: weight update, then blended return
`r = w*spy + (1-w)*shy`, then `pv *= (1 + r)`; the recorded state is
the pair (portfolio value, risky weight) appended for this step. -/
def cppiStep (floor m : ℚ) (rebal : Bool) (spy shy : ℚ) (pv w : ℚ) :
    Except SimError (ℚ × ℚ) :=
  (newWeight floor m rebal pv w).map fun w1 =>
    (pv * (1 + (w1 * spy + (1 - w1) * shy)), w1)

/-- The loop of `run_cppi` over the rows, threading portfolio value and
weight, recording `(portfolio_value, w)` after each step. -/
def run_cppi_go (floor m : ℚ) (rebal : List Nat) :
    List Row → ℚ → ℚ → Except SimError (List (ℚ × ℚ))
  | [], _, _ => .ok []
  | row :: rest, pv, w =>
    match cppiStep floor m (decide (row.date ∈ rebal)) row.spy row.shy pv w with
    | .error e => .error e
    | .ok (pv1, w1) => (run_cppi_go floor m rebal rest pv1 w1).map ((pv1, w1) :: ·)

/-- Model of `run_cppi(returns, floor, m, rebalance_freq)`: initial
state `portfolio_value = 1.0`, `w = 0.0`; rebalance dates are
`set(returns.resample(rebalance_freq).first().index)`.  The source
returns the value list and the weight list separately; here the two
aligned lists are returned zipped as one list of pairs. -/
def run_cppi (returns : List Row) (floor m : ℚ) (freq : Freq) :
    Except SimError (List (ℚ × ℚ)) :=
  run_cppi_go floor m (resample_first_index (returns.map (·.date)) freq) returns 1 0

/-- The evolving state of `run_cppi_dynamic_floor`: portfolio value,
risky weight, and the current dynamic floor.  The source keeps
`dynamic_floor` as loop state and returns only values and weights; the
trace here records its per-step value as well, so that floor claims
can be stated. -/
structure DynState where
  pv : ℚ
  w : ℚ
  dynamic_floor : ℚ
deriving DecidableEq

/-- The weight update of `run_cppi_dynamic_floor` at one step.  Unlike
`run_cppi` this engine keeps `np.float64` scalars throughout, so a
rebalance with `pv = 0` does not raise: the cushion
`max(pv - dynamic_floor, 0) / pv` is the float `0.0 / 0.0 = nan` when
the numerator is 0 (i.e. when the floor is non-negative), and `+inf`
when the numerator is positive; `np.clip(m * cushion, 0, 1)` is then
nan (modelled `none`), or — in the `+inf` case — `1` for `m > 0`, `0`
for `m < 0` (clip of `-inf`), and nan again for `m = 0` (since
`0 * inf = nan`).  The model assumes the zero NAV is the float `+0.0`;
a signed `-0.0` is outside the model. -/
def dynWeight (dfloor m : ℚ) (rebal : Bool) (pv w : ℚ) : Option ℚ :=
  if rebal then
    if pv = 0 then
      if max (pv - dfloor) 0 = 0 then none
      else if 0 < m then some 1
      else if m < 0 then some 0
      else none
    else some (clip01 (m * (max (pv - dfloor) 0 / pv)))
  else some w

/-- One step of `run_cppi_dynamic_floor`, in source order: weight
update against the current dynamic floor (`none` when the weight
becomes the float nan); then, if `w == 1.0`, the floor is reset to
`floor * portfolio_value` (the value before this step's return is
applied); then the blended return updates the portfolio value. -/
def dynStep (floor m : ℚ) (rebal : Bool) (spy shy : ℚ) (s : DynState) :
    Option DynState :=
  (dynWeight s.dynamic_floor m rebal s.pv s.w).map fun w1 =>
    let f1 := if w1 = 1 then floor * s.pv else s.dynamic_floor
    ⟨s.pv * (1 + (w1 * spy + (1 - w1) * shy)), w1, f1⟩

/-- Outcome of a dynamic-floor run.  The engine never raises.  `ok
trace` is a run all of whose recorded values are real numbers.
`nan_tail pre rest` is a run whose weight became the float nan after
the real-valued states `pre`: from that step on nan propagates — the
blended return, the portfolio value and the weight are nan at the nan
step and at every later step (`max(nan - f, 0)` is nan, `nan / nan` is
nan, `np.clip` keeps nan, and `nan == 1.0` is false so the un-recorded
`dynamic_floor` just stays put) — so the remaining `rest` recorded
(value, weight) pairs are all nan.  `pre.length + rest` equals the
input length. -/
inductive DynResult
  | ok (trace : List DynState)
  | nan_tail (pre : List DynState) (rest : Nat)
deriving DecidableEq

/-- The loop of `run_cppi_dynamic_floor`, recording the full state
after each step, switching to the nan-poisoned tail when a zero-NAV
cushion turns the weight into nan. -/
def run_cppi_dynamic_go (floor m : ℚ) (rebal : List Nat) :
    List Row → DynState → DynResult
  | [], _ => .ok []
  | row :: rest, s =>
    match dynStep floor m (decide (row.date ∈ rebal)) row.spy row.shy s with
    | none => .nan_tail [] (rest.length + 1)
    | some s1 =>
      match run_cppi_dynamic_go floor m rebal rest s1 with
      | .ok tail => .ok (s1 :: tail)
      | .nan_tail pre k => .nan_tail (s1 :: pre) k

/-- Model of `run_cppi_dynamic_floor(returns, floor, m,
rebalance_freq)`: initial state `portfolio_value = 1.0`, `w = 0.0`,
`dynamic_floor = floor`; rebalance dates as in `run_cppi`. -/
def run_cppi_dynamic_floor (returns : List Row) (floor m : ℚ) (freq : Freq) :
    DynResult :=
  run_cppi_dynamic_go floor m (resample_first_index (returns.map (·.date)) freq)
    returns ⟨1, 0, floor⟩

/-- Minimum of a list of rationals; `none` on the empty list (pandas
`min` of an empty series is NaN). -/
def minQ : List ℚ → Option ℚ
  | [] => none
  | x :: xs =>
    match minQ xs with
    | none => some x
    | some mo => some (min x mo)

/-- Running maximum (`cummax`) of a list, with accumulator `acc`. -/
def cummaxFrom (acc : ℚ) : List ℚ → List ℚ
  | [] => []
  | x :: xs => max acc x :: cummaxFrom (max acc x) xs

/-- Model of `max_drawdown(cum_return_series)`: running peak by
`cummax`, per-point drawdown `(value - peak) / peak`, result the
minimum over the series; `none` on an empty series. -/
def max_drawdown (cum_return_series : List ℚ) : Option ℚ :=
  match cum_return_series with
  | [] => none
  | x :: _ =>
    minQ (List.zipWith (fun v p => (v - p) / p) cum_return_series
      (cummaxFrom x cum_return_series))

/-- Model of `series.pct_change().dropna()`: period-over-period
fractional change `(x_i - x_{i-1}) / x_{i-1}`, with the undefined
first entry dropped. -/
def pct_change_dropna (xs : List ℚ) : List ℚ :=
  List.zipWith (fun p y => (y - p) / p) xs xs.tail

/-- Mean of a list of rationals; `none` on the empty list (pandas
mean of an empty series is NaN). -/
def meanQ (xs : List ℚ) : Option ℚ :=
  if xs.isEmpty then none else some (xs.sum / (xs.length : ℚ))

/-- Sample variance with `ddof = 1` (the pandas `std` default,
squared); `none` when fewer than two points (pandas `std` is NaN
there). -/
def varQ (xs : List ℚ) : Option ℚ :=
  if xs.length ≤ 1 then none
  else some (((xs.map fun x => (x - xs.sum / (xs.length : ℚ)) ^ 2).sum) /
    ((xs.length : ℚ) - 1))

/-- The defining data of the Sharpe ratio `mean/std * sqrt 252` of a
return list: the pair (mean, sample variance), with `none` when the
statistic is non-finite — too few points, or zero standard deviation
(where the float division yields NaN or ±inf, never an exception). -/
def sharpe_data (rs : List ℚ) : Option (ℚ × ℚ) :=
  match meanQ rs, varQ rs with
  | some mu, some v => if v = 0 then none else some (mu, v)
  | _, _ => none

/-- Insert `x` into an ascending-sorted list, keeping it sorted. -/
def insertSorted (x : ℚ) : List ℚ → List ℚ
  | [] => [x]
  | y :: ys => if x ≤ y then x :: y :: ys else y :: insertSorted x ys

/-- Ascending insertion sort of a list of rationals. -/
def sortQ (xs : List ℚ) : List ℚ :=
  xs.foldr insertSorted []

/-- Floor of a non-negative rational as a natural number. -/
def floorNatQ (h : ℚ) : Nat :=
  h.num.toNat / h.den

/-- Model of `series.quantile(q)` with the default linear
interpolation: on the ascending-sorted values `s` of length `n`, the
rank position is `h = q * (n - 1)`; with `i = ⌊h⌋` the result is
`s i + (h - i) * (s (i+1) - s i)`.  `none` models the NaN of an empty
series and the `ValueError` of a quantile outside `[0, 1]`. -/
def quantileQ (rs : List ℚ) (q : ℚ) : Option ℚ :=
  if rs.isEmpty then none else
  let s := sortQ rs
  let n := s.length
  let h : ℚ := q * ((n : ℚ) - 1)
  if h < 0 ∨ (n : ℚ) - 1 < h then none
  else
    let i := floorNatQ h
    let lo := s.getD i 0
    let hi := s.getD (min (i + 1) (n - 1)) 0
    some (lo + (h - (i : ℚ)) * (hi - lo))

/-- The named statistics mapping returned by `performance_metrics`.
Kurtosis and skewness are computed by the source but are not modelled
here; no claim concerns them.  Annualized volatility
`std * sqrt 252` is irrational and is represented squared. -/
structure Metrics where
  sharpe : Option (ℚ × ℚ)
  mdd : Option ℚ
  ann_vol_sq : Option ℚ
  var : Option ℚ
  cvar : Option ℚ
deriving DecidableEq

/-- Model of `performance_metrics(cumreturn_series, var_conf)`: the
input is unconditionally put through `pct_change().dropna()` to obtain
the daily returns; Sharpe, volatility, VaR and CVaR are computed on
those derived returns, and max drawdown on the input series itself.
The function always returns a result mapping; it raises no error. -/
def performance_metrics (cumreturn_series : List ℚ) (var_conf : ℚ) : Metrics :=
  let daily_returns := pct_change_dropna cumreturn_series
  let var := quantileQ daily_returns (1 - var_conf)
  { sharpe := sharpe_data daily_returns
    mdd := max_drawdown cumreturn_series
    ann_vol_sq := (varQ daily_returns).map (· * 252)
    var := var
    cvar :=
      match var with
      | none => none
      | some v => meanQ (daily_returns.filter (· ≤ v)) }

/-- Model of `check_frozen(strategy_weights, threshold)`: the frozen
fraction is `(w_array == 0).mean()`, the mean of the 0/1 indicator of
exact zero weight (`none`, i.e. NaN, on an empty sequence); the first
component is `frozen_fraction >= threshold`, which is `false` when the
fraction is NaN. -/
def check_frozen (strategy_weights : List ℚ) (threshold : ℚ) : Bool × Option ℚ :=
  let frozen_fraction := meanQ (strategy_weights.map fun w => if w = 0 then (1 : ℚ) else 0)
  (match frozen_fraction with
   | none => false
   | some f => decide (threshold ≤ f), frozen_fraction)

/-! Helper lemmas. -/

theorem clip01_nonneg (x : ℚ) : 0 ≤ clip01 x :=
  le_min (le_max_right x 0) zero_le_one

theorem clip01_le_one (x : ℚ) : clip01 x ≤ 1 :=
  min_le_right _ _

theorem newWeight_ok_bounds {floor m : ℚ} {rebal : Bool} {pv w w1 : ℚ}
    (h : newWeight floor m rebal pv w = .ok w1) (h0 : 0 ≤ w) (h1 : w ≤ 1) :
    0 ≤ w1 ∧ w1 ≤ 1 := by
  unfold newWeight at h
  cases rebal with
  | false =>
    simp only [Bool.false_eq_true, if_false, Except.ok.injEq] at h
    exact h ▸ ⟨h0, h1⟩
  | true =>
    simp only [if_true] at h
    by_cases hpv : pv = 0
    · simp [hpv] at h
    · simp only [hpv, if_false, Except.ok.injEq] at h
      exact h ▸ ⟨clip01_nonneg _, clip01_le_one _⟩

theorem cppiStep_ok_weight {floor m : ℚ} {rebal : Bool} {spy shy pv w pv1 w1 : ℚ}
    (h : cppiStep floor m rebal spy shy pv w = .ok (pv1, w1)) :
    newWeight floor m rebal pv w = .ok w1 := by
  unfold cppiStep at h
  cases hnw : newWeight floor m rebal pv w with
  | error e => rw [hnw] at h; simp [Except.map] at h
  | ok a =>
    rw [hnw] at h
    simp only [Except.map, Except.ok.injEq, Prod.mk.injEq] at h
    rw [h.2]

theorem dynWeight_some_bounds {dfloor m : ℚ} {rebal : Bool} {pv w w1 : ℚ}
    (h : dynWeight dfloor m rebal pv w = some w1) (h0 : 0 ≤ w) (h1 : w ≤ 1) :
    0 ≤ w1 ∧ w1 ≤ 1 := by
  unfold dynWeight at h
  cases rebal with
  | false =>
    simp only [Bool.false_eq_true, if_false, Option.some.injEq] at h
    exact h ▸ ⟨h0, h1⟩
  | true =>
    simp only [if_true] at h
    by_cases hpv : pv = 0
    · simp only [hpv, if_true] at h
      split at h
      · exact absurd h (by simp)
      · split at h
        · simp only [Option.some.injEq] at h
          exact h ▸ ⟨zero_le_one, le_refl 1⟩
        · split at h
          · simp only [Option.some.injEq] at h
            exact h ▸ ⟨le_refl 0, zero_le_one⟩
          · exact absurd h (by simp)
    · simp only [hpv, if_false, Option.some.injEq] at h
      exact h ▸ ⟨clip01_nonneg _, clip01_le_one _⟩

theorem dynStep_some_elim {floor m : ℚ} {rebal : Bool} {spy shy : ℚ} {s s1 : DynState}
    (h : dynStep floor m rebal spy shy s = some s1) :
    dynWeight s.dynamic_floor m rebal s.pv s.w = some s1.w ∧
      s1.dynamic_floor = (if s1.w = 1 then floor * s.pv else s.dynamic_floor) := by
  unfold dynStep at h
  cases hnw : dynWeight s.dynamic_floor m rebal s.pv s.w with
  | none => rw [hnw] at h; simp [Option.map] at h
  | some a =>
    rw [hnw] at h
    simp only [Option.map, Option.some.injEq] at h
    subst h
    exact ⟨rfl, rfl⟩

theorem run_cppi_go_weights (floor m : ℚ) (rebal : List Nat) (rows : List Row) :
    ∀ (pv w : ℚ) (out : List (ℚ × ℚ)),
      run_cppi_go floor m rebal rows pv w = .ok out → 0 ≤ w → w ≤ 1 →
      ∀ p ∈ out, 0 ≤ p.2 ∧ p.2 ≤ 1 := by
  induction rows with
  | nil =>
    intro pv w out h h0 h1 p hp
    simp only [run_cppi_go, Except.ok.injEq] at h
    subst h
    simp at hp
  | cons row rest ih =>
    intro pv w out h h0 h1 p hp
    simp only [run_cppi_go] at h
    cases hstep : cppiStep floor m (decide (row.date ∈ rebal)) row.spy row.shy pv w with
    | error e => rw [hstep] at h; simp at h
    | ok q =>
      obtain ⟨pv1, w1⟩ := q
      rw [hstep] at h
      dsimp only at h
      cases hrec : run_cppi_go floor m rebal rest pv1 w1 with
      | error e => rw [hrec] at h; simp [Except.map] at h
      | ok tail =>
        rw [hrec] at h
        simp only [Except.map, Except.ok.injEq] at h
        subst h
        have hw1 := newWeight_ok_bounds (cppiStep_ok_weight hstep) h0 h1
        rcases List.mem_cons.mp hp with hph | hpt
        · subst hph; exact hw1
        · exact ih pv1 w1 tail hrec hw1.1 hw1.2 p hpt

theorem run_cppi_dynamic_go_weights (floor m : ℚ) (rebal : List Nat) (rows : List Row) :
    ∀ (s : DynState) (out : List DynState),
      run_cppi_dynamic_go floor m rebal rows s = .ok out → 0 ≤ s.w → s.w ≤ 1 →
      ∀ q ∈ out, 0 ≤ q.w ∧ q.w ≤ 1 := by
  induction rows with
  | nil =>
    intro s out h h0 h1 q hq
    simp only [run_cppi_dynamic_go, DynResult.ok.injEq] at h
    subst h
    simp at hq
  | cons row rest ih =>
    intro s out h h0 h1 q hq
    simp only [run_cppi_dynamic_go] at h
    cases hstep : dynStep floor m (decide (row.date ∈ rebal)) row.spy row.shy s with
    | none => rw [hstep] at h; simp at h
    | some s1 =>
      rw [hstep] at h
      dsimp only at h
      cases hrec : run_cppi_dynamic_go floor m rebal rest s1 with
      | nan_tail pre k => rw [hrec] at h; simp at h
      | ok tail =>
        rw [hrec] at h
        simp only [DynResult.ok.injEq] at h
        subst h
        have hw1 := dynWeight_some_bounds (dynStep_some_elim hstep).1 h0 h1
        rcases List.mem_cons.mp hq with hqh | hqt
        · subst hqh; exact hw1
        · exact ih s1 tail hrec hw1.1 hw1.2 q hqt

/-- The relation between two consecutive states of the dynamic-floor
engine: the floor is carried over unchanged unless the later step ran
at full allocation, in which case it was reset to `floor` times the
portfolio value entering that step. -/
def floorRel (floor : ℚ) (a b : DynState) : Prop :=
  (b.w ≠ 1 → b.dynamic_floor = a.dynamic_floor) ∧
    (b.w = 1 → b.dynamic_floor = floor * a.pv)

theorem dynStep_floorRel {floor m : ℚ} {rebal : Bool} {spy shy : ℚ} {s s1 : DynState}
    (h : dynStep floor m rebal spy shy s = some s1) : floorRel floor s s1 := by
  obtain ⟨-, hf⟩ := dynStep_some_elim h
  constructor
  · intro hw; rw [hf, if_neg hw]
  · intro hw; rw [hf, if_pos hw]

theorem run_cppi_dynamic_go_chain (floor m : ℚ) (rebal : List Nat) (rows : List Row) :
    ∀ (s : DynState) (out : List DynState),
      run_cppi_dynamic_go floor m rebal rows s = .ok out →
      List.Chain' (floorRel floor) (s :: out) := by
  induction rows with
  | nil =>
    intro s out h
    simp only [run_cppi_dynamic_go, DynResult.ok.injEq] at h
    subst h
    simp
  | cons row rest ih =>
    intro s out h
    simp only [run_cppi_dynamic_go] at h
    cases hstep : dynStep floor m (decide (row.date ∈ rebal)) row.spy row.shy s with
    | none => rw [hstep] at h; simp at h
    | some s1 =>
      rw [hstep] at h
      dsimp only at h
      cases hrec : run_cppi_dynamic_go floor m rebal rest s1 with
      | nan_tail pre k => rw [hrec] at h; simp at h
      | ok tail =>
        rw [hrec] at h
        simp only [DynResult.ok.injEq] at h
        subst h
        exact List.chain'_cons.mpr ⟨dynStep_floorRel hstep, ih s1 tail hrec⟩

theorem meanQ_le_of_forall {l : List ℚ} {mu b : ℚ} (h : meanQ l = some mu)
    (hb : ∀ x ∈ l, x ≤ b) : mu ≤ b := by
  unfold meanQ at h
  split at h
  · exact absurd h (by simp)
  · rename_i hne
    injection h with h
    subst h
    have hpos : 0 < (l.length : ℚ) := by
      have : l ≠ [] := by simpa [List.isEmpty_iff] using hne
      exact_mod_cast List.length_pos.mpr this
    rw [div_le_iff₀ hpos]
    calc l.sum ≤ l.length • b := List.sum_le_card_nsmul l b hb
      _ = (l.length : ℚ) * b := nsmul_eq_mul _ _
      _ = b * (l.length : ℚ) := mul_comm _ _

theorem minQ_cons_le {q d : ℚ} {l : List ℚ} (h : minQ (q :: l) = some d) : d ≤ q := by
  cases hm : minQ l with
  | none => simp [minQ, hm] at h; exact le_of_eq h.symm
  | some mo => simp [minQ, hm] at h; subst h; exact min_le_left _ _

theorem indicator_sum_eq_count (ws : List ℚ) :
    (ws.map fun w => if w = 0 then (1 : ℚ) else 0).sum = (ws.count 0 : ℚ) := by
  induction ws with
  | nil => simp
  | cons w rest ih =>
    by_cases hw : w = 0 <;>
      simp [List.count_cons, hw, ih, add_comm]

/-! Claim theorems. -/

/-- C1, counterexample: the floor of `run_cppi_dynamic_floor` is not
monotonically non-decreasing.  With floor 1/2, multiplier 3, daily
rebalancing and two days of SPY return −10%, the run reaches full
allocation on day one (floor 1/2) and, still at full allocation after
the −10% day, resets the floor down to 1/2 · 9/10 = 9/20 < 1/2. -/
theorem c1_floor_decreases_counterexample :
    run_cppi_dynamic_floor [⟨0, -1/10, 0⟩, ⟨1, -1/10, 0⟩] (1/2) 3 Freq.D =
        .ok [⟨9/10, 1, 1/2⟩, ⟨81/100, 1, 9/20⟩] ∧
      ¬ ((1 : ℚ)/2 ≤ 9/20) := by
  constructor
  · norm_num [run_cppi_dynamic_floor, run_cppi_dynamic_go, dynStep, dynWeight, clip01,
      resample_first_index, binLabel, Option.map, List.range']
  · norm_num

/-- C1, amended: across one run of `run_cppi_dynamic_floor`, the floor
level is unchanged from each step to the next whenever the later step's
risky weight is not exactly 1; only at a full-allocation step is it
reset, to `floor` times the portfolio value entering that step — a
value that can be lower than the previous floor, so the floor is not
monotone. -/
theorem c1_floor_changes_only_at_full_allocation
    (returns : List Row) (floor m : ℚ) (freq : Freq) (out : List DynState)
    (h : run_cppi_dynamic_floor returns floor m freq = .ok out) :
    List.Chain' (floorRel floor) out :=
  (run_cppi_dynamic_go_chain floor m
    (resample_first_index (returns.map Row.date) freq) returns ⟨1, 0, floor⟩ out h).tail

/-- C1, witness: the amended theorem applied to the concrete two-day
run of the counterexample. -/
theorem c1_witness :
    List.Chain' (floorRel (1/2))
      [⟨9/10, 1, 1/2⟩, ⟨81/100, 1, 9/20⟩] :=
  c1_floor_changes_only_at_full_allocation [⟨0, -1/10, 0⟩, ⟨1, -1/10, 0⟩] (1/2) 3 Freq.D
    [⟨9/10, 1, 1/2⟩, ⟨81/100, 1, 9/20⟩]
    (by norm_num [run_cppi_dynamic_floor, run_cppi_dynamic_go, dynStep, dynWeight, clip01,
      resample_first_index, binLabel, Option.map, List.range'])

/-- C2: the rebalance date set is the set of resample bin labels, not
the set of first series timestamps per bucket.  For a series observed
on a Monday and a Tuesday (days 2 and 3 from the Saturday epoch) with
weekly frequency, the code's set is the following Sunday (day 8),
which is not a timestamp of the series — so `run_cppi` never
rebalances and the risky weight stays 0 — while the spec's
first-timestamp-per-bucket set is the Monday. -/
theorem c2_rebalance_dates_are_bin_labels :
    resample_first_index [2, 3] Freq.W = [8] ∧
      (8 ∉ [2, 3]) ∧
      spec_rebalance_dates [2, 3] Freq.W = [2] ∧
      (run_cppi [⟨2, 1/20, 0⟩, ⟨3, 1/20, 0⟩] (4/5) 3 Freq.W).map (List.map Prod.snd) =
        .ok [0, 0] := by
  refine ⟨by decide, by decide, by decide, ?_⟩
  norm_num [run_cppi, run_cppi_go, cppiStep, newWeight, clip01, resample_first_index,
    binLabel, Except.map, List.range']

/-- C3: neither engine absorbs a zero-NAV rebalance by setting the
risky weight to 0.  On a −100% day for both assets (weight 3/5 on day
0, so the portfolio value becomes exactly 0 before day 1's rebalance):
`run_cppi`, whose state is a plain Python float, raises
`ZeroDivisionError` at the cushion division; `run_cppi_dynamic_floor`,
whose state is an `np.float64`, does not raise — its cushion is the
float `0/0 = nan`, and the run completes with nan (not 0) recorded as
the weight and portfolio value of the remaining step. -/
theorem c3_zero_nav_not_absorbed :
    run_cppi [⟨0, -1, -1⟩, ⟨1, 0, 0⟩] (4/5) 3 Freq.D = .error .div_by_zero ∧
      run_cppi_dynamic_floor [⟨0, -1, -1⟩, ⟨1, 0, 0⟩] (4/5) 3 Freq.D =
        .nan_tail [⟨0, 3/5, 4/5⟩] 1 := by
  constructor
  · norm_num [run_cppi, run_cppi_go, cppiStep, newWeight, clip01, resample_first_index,
      binLabel, Except.map, List.range']
  · norm_num [run_cppi_dynamic_floor, run_cppi_dynamic_go, dynStep, dynWeight, clip01,
      resample_first_index, binLabel, Option.map, List.range']

/-- C4: for every return series and configuration, if a run of
`run_cppi` (respectively `run_cppi_dynamic_floor`) completes without a
division error, every recorded risky weight lies in [0, 1]: the
initial weight 0 is in bounds, `np.clip(·, 0, 1)` keeps every
rebalance weight in bounds, and non-rebalance days carry the previous
weight over. -/
theorem c4_weight_bounds :
    (∀ (returns : List Row) (floor m : ℚ) (freq : Freq) (out : List (ℚ × ℚ)),
        run_cppi returns floor m freq = .ok out →
        ∀ p ∈ out, 0 ≤ p.2 ∧ p.2 ≤ 1) ∧
      (∀ (returns : List Row) (floor m : ℚ) (freq : Freq) (out : List DynState),
        run_cppi_dynamic_floor returns floor m freq = .ok out →
        ∀ s ∈ out, 0 ≤ s.w ∧ s.w ≤ 1) := by
  constructor
  · intro returns floor m freq out h p hp
    exact run_cppi_go_weights floor m _ returns 1 0 out h le_rfl zero_le_one p hp
  · intro returns floor m freq out h s hs
    exact run_cppi_dynamic_go_weights floor m _ returns ⟨1, 0, floor⟩ out h
      le_rfl zero_le_one s hs

/-- C4, witness: both parts of the weight-bounds theorem applied to a
concrete one-day run (weight 3/5 after a rebalance with floor 4/5 and
multiplier 3). -/
theorem c4_witness :
    (0 ≤ ((3 : ℚ)/5) ∧ ((3 : ℚ)/5) ≤ 1) ∧
      (0 ≤ ((3 : ℚ)/5) ∧ ((3 : ℚ)/5) ≤ 1) :=
  ⟨c4_weight_bounds.1 [⟨0, 1/20, 0⟩] (4/5) 3 Freq.D [(103/100, 3/5)]
      (by norm_num [run_cppi, run_cppi_go, cppiStep, newWeight, clip01,
        resample_first_index, binLabel, Except.map, List.range'])
      (103/100, 3/5) (List.mem_singleton.mpr rfl),
    c4_weight_bounds.2 [⟨0, 1/20, 0⟩] (4/5) 3 Freq.D [⟨103/100, 3/5, 4/5⟩]
      (by norm_num [run_cppi_dynamic_floor, run_cppi_dynamic_go, dynStep, dynWeight, clip01,
        resample_first_index, binLabel, Option.map, List.range'])
      ⟨103/100, 3/5, 4/5⟩ (List.mem_singleton.mpr rfl)⟩

/-- C5, counterexample: on the flat cumulative series [1, 1, 1] the
derived returns are [0, 0] with zero standard deviation, and
`performance_metrics` returns its result mapping normally with the
NaN sentinel (modelled `none`) as the Sharpe entry — no error is
signalled to the caller. -/
theorem c5_sharpe_nan_counterexample :
    (performance_metrics [1, 1, 1] (95/100)).sharpe = none := by
  norm_num [performance_metrics, sharpe_data, pct_change_dropna, meanQ, varQ]

/-- C5, amended: whenever the derived per-period returns have zero
(sample) standard deviation, `performance_metrics` returns normally
and the Sharpe entry of its result mapping is the non-finite float
sentinel (NaN or ±inf, modelled `none`); no error is signalled. -/
theorem c5_zero_std_gives_sentinel (xs : List ℚ) (c : ℚ)
    (h : varQ (pct_change_dropna xs) = some 0) :
    (performance_metrics xs c).sharpe = none := by
  show sharpe_data (pct_change_dropna xs) = none
  unfold sharpe_data
  rw [h]
  cases hm : meanQ (pct_change_dropna xs) <;> simp

/-- C5, witness: the amended theorem applied to the cumulative series
[1, 2, 4], whose derived returns [1, 1] have zero standard
deviation. -/
theorem c5_witness : (performance_metrics [1, 2, 4] (1/2)).sharpe = none :=
  c5_zero_std_gives_sentinel [1, 2, 4] (1/2) (by norm_num [pct_change_dropna, varQ])

/-- C6, counterexample: `performance_metrics` does not compute the
Sharpe ratio over its input series: fed the per-period return series
[1/10, 2/10, 4/10], it first applies `pct_change`, obtaining [1, 1]
whose standard deviation is zero, and its Sharpe entry is the NaN/inf
sentinel — while the spec formula over the input itself is the
well-defined pair (mean 7/30, variance 7/300). -/
theorem c6_sharpe_not_over_input :
    (performance_metrics [1/10, 2/10, 4/10] (95/100)).sharpe ≠
      sharpe_data [1/10, 2/10, 4/10] := by
  norm_num [performance_metrics, sharpe_data, pct_change_dropna, meanQ, varQ]
  exact fun hcontra => Option.noConfusion hcontra

/-- C6, amended: `performance_metrics` treats its input as a
cumulative-value series: for every input it derives per-period returns
by percentage change, dropping the one undefined first value (the
derived list is one shorter), and the Sharpe entry of the result is
the Sharpe statistic of those derived returns, not of the input. -/
theorem c6_input_is_cumulative (xs : List ℚ) (c : ℚ) :
    (performance_metrics xs c).sharpe = sharpe_data (pct_change_dropna xs) ∧
      (pct_change_dropna xs).length = xs.length - 1 := by
  refine ⟨rfl, ?_⟩
  simp [pct_change_dropna]

/-- C7: whenever `performance_metrics` reports both a VaR threshold and
a Conditional VaR (the latter requires a non-empty set of returns at or
below the threshold), the CVaR is at most the VaR: it is the mean of a
non-empty list of values each at most the threshold. -/
theorem c7_cvar_le_var (xs : List ℚ) (c v cv : ℚ)
    (h1 : (performance_metrics xs c).var = some v)
    (h2 : (performance_metrics xs c).cvar = some cv) : cv ≤ v := by
  have hv : quantileQ (pct_change_dropna xs) (1 - c) = some v := h1
  have h2m : (match quantileQ (pct_change_dropna xs) (1 - c) with
      | none => none
      | some v => meanQ ((pct_change_dropna xs).filter (· ≤ v))) = some cv := h2
  rw [hv] at h2m
  refine meanQ_le_of_forall h2m fun x hx => ?_
  exact of_decide_eq_true (List.mem_filter.mp hx).2

/-- C7, witness: on the cumulative series [1, 2, 1] at 95% confidence,
the derived returns are [1, −1/2], the VaR is −17/40, the tail below
it is the non-empty [−1/2], and CVaR −1/2 ≤ VaR −17/40. -/
theorem c7_witness : ((-1 : ℚ)/2) ≤ ((-17 : ℚ)/40) :=
  c7_cvar_le_var [1, 2, 1] (95/100) ((-17)/40) ((-1)/2)
    (by norm_num [performance_metrics, pct_change_dropna, quantileQ, sortQ, insertSorted,
      floorNatQ, meanQ])
    (by norm_num [performance_metrics, pct_change_dropna, quantileQ, sortQ, insertSorted,
      floorNatQ, meanQ, List.filter])

/-- C8: whenever `max_drawdown` returns a value (it returns NaN,
modelled `none`, only on an empty series), that value is at most 0:
the first point's drawdown against the running peak is exactly 0, and
the result is the minimum over the series. -/
theorem c8_max_drawdown_nonpos (xs : List ℚ) (d : ℚ)
    (h : max_drawdown xs = some d) : d ≤ 0 := by
  match xs with
  | [] => simp [max_drawdown] at h
  | x :: rest =>
    have hrw : max_drawdown (x :: rest) =
        minQ (0 :: List.zipWith (fun v p => (v - p) / p) rest (cummaxFrom x rest)) := by
      simp [max_drawdown, cummaxFrom, max_self]
    rw [hrw] at h
    exact minQ_cons_le h

/-- C8, witness: the drawdown bound applied to the concrete series
[1, 9/10, 11/10], whose max drawdown is −1/10. -/
theorem c8_witness : ((-1 : ℚ)/10) ≤ 0 :=
  c8_max_drawdown_nonpos [1, 9/10, 11/10] ((-1)/10)
    (by norm_num [max_drawdown, cummaxFrom, minQ])

/-- C9: on every non-empty weight sequence, `check_frozen` reports the
fraction of entries exactly equal to 0 together with the comparison of
that fraction against the threshold; in particular the two scenario
sequences of the spec report (false, 2/5) and (true, 9/10) at
threshold 1/2. -/
theorem c9_check_frozen_correct :
    (∀ (ws : List ℚ) (t : ℚ), ws ≠ [] →
        (check_frozen ws t).2 = some ((ws.count 0 : ℚ) / (ws.length : ℚ)) ∧
          ((check_frozen ws t).1 = true ↔ t ≤ (ws.count 0 : ℚ) / (ws.length : ℚ))) ∧
      check_frozen [0, 0, 0, 0, 1, 1, 1, 1, 1, 1] (1/2) = (false, some (2/5)) ∧
        check_frozen [0, 0, 0, 0, 0, 0, 1, 0, 0, 0] (1/2) = (true, some (9/10)) := by
  refine ⟨?_, by norm_num [check_frozen, meanQ], by norm_num [check_frozen, meanQ]⟩
  intro ws t hne
  have hmean : meanQ (ws.map fun w => if w = 0 then (1 : ℚ) else 0) =
      some ((ws.count 0 : ℚ) / (ws.length : ℚ)) := by
    unfold meanQ
    have hemp : (ws.map fun w => if w = 0 then (1 : ℚ) else 0).isEmpty = false := by
      simp [List.isEmpty_iff, hne]
    simp [hemp, indicator_sum_eq_count]
  constructor
  · simp [check_frozen, hmean]
  · simp [check_frozen, hmean]

/-- C9, witness: the characterization applied to the sequence
[0, 0, 0, 1] at threshold 1/2: three of four entries are zero, so the
strategy is reported frozen. -/
theorem c9_witness : (check_frozen [0, 0, 0, 1] (1/2)).1 = true := by
  have h := (c9_check_frozen_correct.1 [0, 0, 0, 1] (1/2) (by simp)).2
  exact h.mpr (by norm_num [List.count_cons])

/-- C10: on the empty weight sequence, `check_frozen` raises no error
and reports frozen = false for every threshold: the zero-fraction of
an empty sequence is NaN (modelled `none`) and the comparison of NaN
against the threshold is false. -/
theorem c10_check_frozen_empty (t : ℚ) : check_frozen [] t = (false, none) :=
  rfl

end CPPI
